import Mathlib

/-!
Verification of the kernel of the `operating-system-simulator` repository.

The Rust sources are shallowly embedded as Lean functions:

* fixed arrays of 32-bit words (`[u32; N]`) become functions `Nat → Nat`
  together with explicit bounds checks, exactly where the source checks them;
* `HashMap` becomes a function `Nat → Option _`; insertion overwrites;
* every Rust `panic!` (including slice-index panics and debug-mode integer
  overflow aborts) is modelled by `Option.none` / a partial result;
* `Result<T, &str>` becomes `Except LtsError T` with one constructor per
  error string of the source.

Sources embedded: `src/io/disk.rs`, `src/kernel/memory.rs`,
`src/kernel/process_control_block.rs`, `src/kernel/long_term_scheduler.rs`,
`src/kernel/short_term_scheduler.rs`, `src/kernel/cpu.rs`.
-/

namespace OsSim

/-- Write the list `xs` into the word store `d` starting at index `start`
(the semantics of Rust's `slice[start..end].copy_from_slice(xs)`, bounds
being checked separately by each caller). -/
def writeBlockFn (d : Nat → Nat) (start : Nat) : List Nat → (Nat → Nat)
  | [] => d
  | x :: xs => writeBlockFn (fun i => if i = start then x else d i) (start + 1) xs

/-- Read `len` consecutive words of the store `d` starting at `start`
(the semantics of Rust's `slice[start..start+len].to_vec()`). -/
def readBlockFn (d : Nat → Nat) (start len : Nat) : List Nat :=
  (List.range len).map (fun i => d (start + i))

theorem writeBlockFn_apply (xs : List Nat) (d : Nat → Nat) (start i : Nat) :
    writeBlockFn d start xs i =
      if start ≤ i ∧ i < start + xs.length then xs.getD (i - start) 0 else d i := by
  induction xs generalizing d start with
  | nil =>
    rw [writeBlockFn, if_neg]
    simp only [List.length_nil]
    omega
  | cons x xs ih =>
    rw [writeBlockFn, ih]
    rcases Nat.lt_trichotomy i start with hlt | heq | hgt
    · have h1 : ¬ (start + 1 ≤ i) := by omega
      have h2 : ¬ (start ≤ i) := by omega
      have h3 : i ≠ start := by omega
      simp [h1, h2, h3]
    · subst heq
      have h1 : ¬ (i + 1 ≤ i) := by omega
      simp [h1, List.length_cons]
    · have h1 : start + 1 ≤ i := by omega
      have h2 : start ≤ i := by omega
      have h3 : i ≠ start := by omega
      by_cases h4 : i < start + 1 + xs.length
      · have h5 : i < start + (xs.length + 1) := by omega
        simp only [h1, h4, and_self, if_true, h2, h5, List.length_cons, if_pos, and_true]
        have h6 : i - start = (i - (start + 1)) + 1 := by omega
        rw [h6]
        simp [List.getD_cons_succ]
      · have h5 : ¬ (i < start + (xs.length + 1)) := by omega
        simp [h1, h4, h2, h5, h3, List.length_cons]

theorem writeBlockFn_apply_of_lt (xs : List Nat) (d : Nat → Nat) (start i : Nat)
    (h : i < start) : writeBlockFn d start xs i = d i := by
  rw [writeBlockFn_apply]
  have h1 : ¬ (start ≤ i ∧ i < start + xs.length) := by omega
  simp [h1]

theorem readBlockFn_congr (f g : Nat → Nat) (start len : Nat)
    (h : ∀ i, i < len → f (start + i) = g (start + i)) :
    readBlockFn f start len = readBlockFn g start len := by
  unfold readBlockFn
  apply List.map_congr_left
  intro i hi
  exact h i (List.mem_range.mp hi)

theorem readBlockFn_writeBlockFn (d : Nat → Nat) (start : Nat) (xs : List Nat) :
    readBlockFn (writeBlockFn d start xs) start xs.length = xs := by
  apply List.ext_getElem
  · simp [readBlockFn]
  · intro i h1 h2
    simp only [readBlockFn, List.getElem_map, List.getElem_range]
    rw [writeBlockFn_apply]
    simp only [readBlockFn, List.length_map, List.length_range] at h1
    have hc : start ≤ start + i ∧ start + i < start + xs.length := by omega
    rw [if_pos hc]
    have h3 : start + i - start = i := by omega
    rw [h3]
    exact List.getD_eq_getElem xs 0 h2

theorem readBlockFn_add (d : Nat → Nat) (start a b : Nat) :
    readBlockFn d start (a + b) =
      readBlockFn d start a ++ readBlockFn d (start + a) b := by
  unfold readBlockFn
  rw [List.range_add, List.map_append, List.map_map]
  congr 1
  apply List.map_congr_left
  intro i _
  simp only [Function.comp_apply]
  congr 1
  omega

/-! ## `src/io/program_info.rs` -/

/-- Metadata the disk records per program (`ProgramInfo` in
`src/io/program_info.rs`). -/
structure ProgramInfo where
  id : Nat
  priority : Nat
  instruction_buffer_size : Nat
  in_buffer_size : Nat
  out_buffer_size : Nat
  temp_buffer_size : Nat
  data_start_idx : Nat
  deriving DecidableEq, Repr

/-- Total image length of a program: the four region sizes in order. -/
def ProgramInfo.total_size (p : ProgramInfo) : Nat :=
  p.instruction_buffer_size + p.in_buffer_size + p.out_buffer_size + p.temp_buffer_size

/-! ## `src/io/disk.rs` -/

def DISK_SIZE : Nat := 4096

/-- The staging disk (`Disk` in `src/io/disk.rs`): a program map, a word
pool of capacity 4096 and a bump pointer. -/
structure Disk where
  program_map : Nat → Option ProgramInfo
  data : Nat → Nat
  current_data_idx : Nat

def Disk.new : Disk :=
  { program_map := fun _ => none, data := fun _ => 0, current_data_idx := 0 }

/-- `Disk::get_info_for`; `none` models the "Program not found" panic. -/
def Disk.get_info_for (d : Disk) (program_id : Nat) : Option ProgramInfo :=
  d.program_map program_id

/-- `Disk::read_data_for`; `none` models the slice-index panic when the
computed end index exceeds the pool. -/
def Disk.read_data_for (d : Disk) (program_info : ProgramInfo) : Option (List Nat) :=
  let data_start_idx := program_info.data_start_idx
  let data_end_idx := data_start_idx
                        + program_info.instruction_buffer_size
                        + program_info.in_buffer_size
                        + program_info.out_buffer_size
                        + program_info.temp_buffer_size
  if data_end_idx ≤ DISK_SIZE then
    some (readBlockFn d.data data_start_idx (data_end_idx - data_start_idx))
  else
    none

/-- `Disk::write_program`; `none` models the "Out of bounds disk access"
panic. Note the source performs no duplicate-id check: the map insert
overwrites any existing entry for `id`. -/
def Disk.write_program (d : Disk) (id priority : Nat)
    (instruction_buffer_size in_buffer_size out_buffer_size temp_buffer_size : Nat)
    (data : List Nat) : Option Disk :=
  let data_start_idx := d.current_data_idx
  let data_end_idx := data_start_idx + data.length
  if data_end_idx > DISK_SIZE then
    none
  else
    some { program_map := fun k => if k = id then
             some { id := id, priority := priority,
                    instruction_buffer_size := instruction_buffer_size,
                    in_buffer_size := in_buffer_size,
                    out_buffer_size := out_buffer_size,
                    temp_buffer_size := temp_buffer_size,
                    data_start_idx := data_start_idx }
           else d.program_map k,
           data := writeBlockFn d.data data_start_idx data,
           current_data_idx := d.current_data_idx + data.length }

/-- `Disk::update_program`; overwrites the `output ++ temp` region in place.
`none` models the length-mismatch panic, the missing-id panic and the
slice-bound panic. -/
def Disk.update_program (d : Disk) (program_id : Nat) (data : List Nat) : Option Disk :=
  match d.program_map program_id with
  | none => none
  | some program_info =>
    let data_start_idx := program_info.data_start_idx
                            + program_info.instruction_buffer_size
                            + program_info.in_buffer_size
    let data_end_idx := data_start_idx
                          + program_info.out_buffer_size
                          + program_info.temp_buffer_size
    if data.length ≠ data_end_idx - data_start_idx then
      none
    else if data_end_idx ≤ DISK_SIZE then
      some { d with data := writeBlockFn d.data data_start_idx data }
    else
      none

/-! ## `src/kernel/process_control_block.rs` -/

inductive ProcessState where
  | Ready
  | Running
  | Waiting
  | Terminated
  deriving DecidableEq, Repr

/-- The pure fields of `ProcessControlBlock` (the wall-clock timing
accumulators of the source are not modelled). -/
structure Pcb where
  program_counter : Nat
  registers : Fin 16 → Nat
  state : ProcessState
  id : Nat
  priority : Nat
  mem_start_address : Nat
  mem_in_start_address : Nat
  mem_out_start_address : Nat
  mem_temp_start_address : Nat
  mem_end_address : Nat

/-- `ProcessControlBlock::new`. -/
def Pcb.new (program_info : ProgramInfo) (mem_start_address mem_end_address : Nat) : Pcb :=
  { program_counter := 0
    registers := fun _ => 0
    state := ProcessState.Ready
    id := program_info.id
    priority := program_info.priority
    mem_start_address := mem_start_address
    mem_in_start_address := mem_start_address + program_info.instruction_buffer_size
    mem_out_start_address := mem_start_address + program_info.instruction_buffer_size
                               + program_info.in_buffer_size
    mem_temp_start_address := mem_start_address + program_info.instruction_buffer_size
                                + program_info.in_buffer_size + program_info.out_buffer_size
    mem_end_address := mem_end_address }

/-! ## `src/kernel/memory.rs` -/

def MEMORY_SIZE : Nat := 1024

/-- Main memory (`Memory` in `src/kernel/memory.rs`). -/
structure Memory where
  pcb_map : Nat → Option Pcb
  data : Nat → Nat
  current_data_idx : Nat

def Memory.new : Memory :=
  { pcb_map := fun _ => none, data := fun _ => 0, current_data_idx := 0 }

/-- `Memory::read_from`; `none` models the out-of-bounds panic. -/
def Memory.read_from (m : Memory) (address : Nat) : Option Nat :=
  if address ≥ MEMORY_SIZE then none else some (m.data address)

/-- `Memory::read_block_from`. Note the source rejects
`end_address ≥ MEMORY_SIZE` (not `>`), so a block ending exactly at 1024
is fatal even though no index ≥ 1024 would be read. -/
def Memory.read_block_from (m : Memory) (start_address end_address : Nat) :
    Option (List Nat) :=
  if start_address ≥ MEMORY_SIZE ∨ end_address ≥ MEMORY_SIZE then none
  else if start_address > end_address then none
  else some (readBlockFn m.data start_address (end_address - start_address))

/-- `Memory::write_to`; `none` models the out-of-bounds panic. -/
def Memory.write_to (m : Memory) (address value : Nat) : Option Memory :=
  if address ≥ MEMORY_SIZE then none
  else some { m with data := fun i => if i = address then value else m.data i }

/-- `Memory::write_block_to`; the source rejects only `end > MEMORY_SIZE`,
so a write ending exactly at 1024 is accepted. -/
def Memory.write_block_to (m : Memory) (address : Nat) (data : List Nat) :
    Option Memory :=
  if address + data.length > MEMORY_SIZE then none
  else some { m with data := writeBlockFn m.data address data }

/-- `Memory::create_process`: bump the pointer, write the image, register
a fresh PCB (overwriting any PCB with the same id). -/
def Memory.create_process (m : Memory) (program_info : ProgramInfo)
    (program_data : List Nat) : Option Memory :=
  let start_address := m.current_data_idx
  let end_address := start_address + program_data.length
  match Memory.write_block_to
      { m with current_data_idx := end_address } start_address program_data with
  | none => none
  | some m2 =>
    some { m2 with pcb_map := fun k =>
             if k = program_info.id then some (Pcb.new program_info start_address end_address)
             else m2.pcb_map k }

/-- `Memory::get_pcb_for`; `none` models the "No process found" panic. -/
def Memory.get_pcb_for (m : Memory) (process_id : Nat) : Option Pcb :=
  m.pcb_map process_id

/-- `Memory::core_dump`: clear the PCB map, zero the word array, reset the
bump pointer. -/
def Memory.core_dump (m : Memory) : Option Memory :=
  match Memory.write_block_to { m with pcb_map := fun _ => none } 0
      (List.replicate MEMORY_SIZE 0) with
  | none => none
  | some m2 => some { m2 with current_data_idx := 0 }

/-- `Memory::get_remaining_memory` (`MEMORY_SIZE - self.current_data_idx`;
the Rust usize subtraction would abort if the pointer exceeded 1024, which
never happens in a successfully constructed memory). -/
def Memory.get_remaining_memory (m : Memory) : Nat :=
  MEMORY_SIZE - m.current_data_idx

/-! ## `src/kernel/cpu.rs`

The CPU's fetch-decode-execute cycle operates on `CpuResources`. The DMA
channel of the source is a synchronous request/reply pair (the CPU thread
blocks on the reply before continuing), so a DMA `Fetch`/`Store` is
embedded as a direct `Memory.read_from` / `Memory.write_to`. Rust `u32`
arithmetic aborts on overflow (debug semantics, the behaviour the spec
documents), modelled by `Option.none`. -/

/-- The decoded-instruction record (`DecodedInstruction`). -/
structure DecodedInstruction where
  instr_type : Nat
  opcode : Nat
  reg_1_num : Nat
  reg_2_num : Nat
  reg_3_num : Nat
  address : Nat
  deriving DecidableEq, Repr

/-- `Cpu::extract_bits`: `(instruction << start_index) >> (32 - length)`
on `u32` (shifts wrap the intermediate product modulo 2^32). -/
def extract_bits (instruction start_index length : Nat) : Nat :=
  instruction * 2 ^ start_index % 2 ^ 32 / 2 ^ (32 - length)

/-- `Cpu::decode`; the wildcard arm of the source match (unreachable for
2-bit instruction types) is `none`. -/
def decode (instruction : Nat) : Option DecodedInstruction :=
  let t := extract_bits instruction 0 2
  let op := extract_bits instruction 2 6
  if t = 0 then
    some { instr_type := t, opcode := op,
           reg_1_num := extract_bits instruction 8 4,
           reg_2_num := extract_bits instruction 12 4,
           reg_3_num := extract_bits instruction 16 4, address := 0 }
  else if t = 1 then
    some { instr_type := t, opcode := op,
           reg_1_num := extract_bits instruction 8 4,
           reg_2_num := extract_bits instruction 12 4,
           reg_3_num := 0, address := extract_bits instruction 16 16 }
  else if t = 2 then
    some { instr_type := t, opcode := op,
           reg_1_num := 0, reg_2_num := 0, reg_3_num := 0,
           address := extract_bits instruction 8 16 }
  else if t = 3 then
    some { instr_type := t, opcode := op,
           reg_1_num := extract_bits instruction 8 4,
           reg_2_num := extract_bits instruction 12 4,
           reg_3_num := 0, address := extract_bits instruction 16 16 }
  else
    none

/-- The mutable execution state of the CPU (`CpuResources`), together with
the shared `Memory` it reads and writes through the DMA channel. The
`proc_interrupt_type` / `proc_should_interrupt` pair is folded into
`interrupt` (set by `signal_interrupt`). -/
structure CpuResources where
  memory : Memory
  cache : List Nat
  program_counter : Nat
  mem_start_address : Nat
  registers : Fin 16 → Nat
  interrupt : Option ProcessState

/-- `Cpu::get_reg`; `none` models the register-index panic. -/
def get_reg (resources : CpuResources) (reg_num : Nat) : Option Nat :=
  if h : reg_num < 16 then some (resources.registers ⟨reg_num, h⟩) else none

/-- `Cpu::set_reg`; `none` models the register-index panic. -/
def set_reg (resources : CpuResources) (reg_num value : Nat) : Option CpuResources :=
  if h : reg_num < 16 then
    some { resources with registers := fun i =>
             if i = (⟨reg_num, h⟩ : Fin 16) then value else resources.registers i }
  else none

/-- Debug-mode `u32` addition: aborts (`none`) on overflow past 2^32. -/
def u32_add (a b : Nat) : Option Nat :=
  if a + b < 2 ^ 32 then some (a + b) else none

/-- Debug-mode `u32` subtraction: aborts (`none`) on underflow. -/
def u32_sub (a b : Nat) : Option Nat :=
  if a < b then none else some (a - b)

/-- Debug-mode `u32` multiplication: aborts (`none`) on overflow. -/
def u32_mul (a b : Nat) : Option Nat :=
  if a * b < 2 ^ 32 then some (a * b) else none

/-- `u32` division: aborts (`none`) on division by zero. -/
def u32_div (a b : Nat) : Option Nat :=
  if b = 0 then none else some (a / b)

/-- `Cpu::fetch`: DMA-free path used by `LW` — word index is
`address / 4 + mem_start_address`. -/
def cpu_fetch (resources : CpuResources) (address : Nat) : Option Nat :=
  Memory.read_from resources.memory (address / 4 + resources.mem_start_address)

/-- `Cpu::store`: word index is `address / 4 + mem_start_address`. -/
def cpu_store (resources : CpuResources) (address value : Nat) : Option CpuResources :=
  match Memory.write_to resources.memory (address / 4 + resources.mem_start_address) value with
  | none => none
  | some m => some { resources with memory := m }

/-- `Cpu::branch`: the program counter becomes `destination_address / 4`. -/
def cpu_branch (resources : CpuResources) (destination_address : Nat) : CpuResources :=
  { resources with program_counter := destination_address / 4 }

/-- `Cpu::signal_interrupt`. -/
def signal_interrupt (resources : CpuResources) (interrupt_type : ProcessState) :
    CpuResources :=
  { resources with interrupt := some interrupt_type }

/-- `Cpu::execute_arithmetic` (opcodes 0x4-0xA and 0x10). -/
def execute_arithmetic (resources : CpuResources) (instruction : DecodedInstruction) :
    Option CpuResources :=
  if instruction.opcode = 0x4 then do
    let v ← get_reg resources instruction.reg_2_num
    set_reg resources instruction.reg_1_num v
  else if instruction.opcode = 0x5 then do
    let a ← get_reg resources instruction.reg_1_num
    let b ← get_reg resources instruction.reg_2_num
    let v ← u32_add a b
    set_reg resources instruction.reg_3_num v
  else if instruction.opcode = 0x6 then do
    let a ← get_reg resources instruction.reg_1_num
    let b ← get_reg resources instruction.reg_2_num
    let v ← u32_sub a b
    set_reg resources instruction.reg_3_num v
  else if instruction.opcode = 0x7 then do
    let a ← get_reg resources instruction.reg_1_num
    let b ← get_reg resources instruction.reg_2_num
    let v ← u32_mul a b
    set_reg resources instruction.reg_3_num v
  else if instruction.opcode = 0x8 then do
    let a ← get_reg resources instruction.reg_1_num
    let b ← get_reg resources instruction.reg_2_num
    let v ← u32_div a b
    set_reg resources instruction.reg_3_num v
  else if instruction.opcode = 0x9 then do
    let a ← get_reg resources instruction.reg_1_num
    let b ← get_reg resources instruction.reg_2_num
    set_reg resources instruction.reg_3_num (Nat.land a b)
  else if instruction.opcode = 0xA then do
    let a ← get_reg resources instruction.reg_1_num
    let b ← get_reg resources instruction.reg_2_num
    set_reg resources instruction.reg_3_num (Nat.lor a b)
  else if instruction.opcode = 0x10 then do
    let a ← get_reg resources instruction.reg_1_num
    let b ← get_reg resources instruction.reg_2_num
    if a < b then set_reg resources instruction.reg_3_num 1
    else set_reg resources instruction.reg_3_num 0
  else
    none

/-- `Cpu::execute_cond_branch_immediate` (opcodes 0x2, 0x3, 0xB-0xF, 0x11,
0x15-0x1A). -/
def execute_cond_branch_immediate (resources : CpuResources)
    (instruction : DecodedInstruction) : Option CpuResources :=
  if instruction.opcode = 0x2 then
    if instruction.reg_2_num = 0 then do
      let value ← get_reg resources instruction.reg_1_num
      cpu_store resources instruction.address value
    else do
      let address ← get_reg resources instruction.reg_2_num
      let value ← get_reg resources instruction.reg_1_num
      cpu_store resources address value
  else if instruction.opcode = 0x3 then
    if instruction.reg_1_num = 0 then do
      let value ← cpu_fetch resources instruction.address
      set_reg resources instruction.reg_2_num value
    else do
      let address ← get_reg resources instruction.reg_1_num
      let value ← cpu_fetch resources address
      set_reg resources instruction.reg_2_num value
  else if instruction.opcode = 0xB then
    set_reg resources instruction.reg_2_num instruction.address
  else if instruction.opcode = 0xC then do
    let v ← get_reg resources instruction.reg_2_num
    let v2 ← u32_add v instruction.address
    set_reg resources instruction.reg_2_num v2
  else if instruction.opcode = 0xD then do
    let v ← get_reg resources instruction.reg_2_num
    let v2 ← u32_mul v instruction.address
    set_reg resources instruction.reg_2_num v2
  else if instruction.opcode = 0xE then do
    let v ← get_reg resources instruction.reg_2_num
    let v2 ← u32_div v instruction.address
    set_reg resources instruction.reg_2_num v2
  else if instruction.opcode = 0xF then
    set_reg resources instruction.reg_2_num instruction.address
  else if instruction.opcode = 0x11 then do
    let v ← get_reg resources instruction.reg_2_num
    if v < instruction.address then set_reg resources instruction.reg_1_num 1
    else set_reg resources instruction.reg_1_num 0
  else if instruction.opcode = 0x15 then do
    let a ← get_reg resources instruction.reg_1_num
    let b ← get_reg resources instruction.reg_2_num
    if a = b then pure (cpu_branch resources instruction.address) else pure resources
  else if instruction.opcode = 0x16 then do
    let a ← get_reg resources instruction.reg_1_num
    let b ← get_reg resources instruction.reg_2_num
    if a ≠ b then pure (cpu_branch resources instruction.address) else pure resources
  else if instruction.opcode = 0x17 then do
    let a ← get_reg resources instruction.reg_1_num
    if a = 0 then pure (cpu_branch resources instruction.address) else pure resources
  else if instruction.opcode = 0x18 then do
    let a ← get_reg resources instruction.reg_1_num
    if a ≠ 0 then pure (cpu_branch resources instruction.address) else pure resources
  else if instruction.opcode = 0x19 then do
    let a ← get_reg resources instruction.reg_1_num
    if a > 0 then pure (cpu_branch resources instruction.address) else pure resources
  else if instruction.opcode = 0x1A then do
    -- BLZ: the source compares an unsigned register with 0 using <
    -- (under #[allow(unused_comparisons)]); on Nat this is the same
    -- always-false test.
    let a ← get_reg resources instruction.reg_1_num
    if a < 0 then pure (cpu_branch resources instruction.address) else pure resources
  else
    none

/-- `Cpu::execute_uncond_jump` (opcodes 0x12 HLT, 0x14 JMP). -/
def execute_uncond_jump (resources : CpuResources) (instruction : DecodedInstruction) :
    Option CpuResources :=
  if instruction.opcode = 0x12 then
    some (signal_interrupt resources ProcessState.Terminated)
  else if instruction.opcode = 0x14 then
    some (cpu_branch resources instruction.address)
  else
    none

/-- `Cpu::execute_io` (opcodes 0x0 RD, 0x1 WR); a DMA round trip is a
synchronous memory access. -/
def execute_io (resources : CpuResources) (instruction : DecodedInstruction) :
    Option CpuResources :=
  if instruction.opcode = 0x0 then
    if instruction.reg_2_num = 0 then do
      let value ← Memory.read_from resources.memory
        (instruction.address / 4 + resources.mem_start_address)
      set_reg resources instruction.reg_1_num value
    else do
      let a ← get_reg resources instruction.reg_2_num
      let value ← Memory.read_from resources.memory (a / 4 + resources.mem_start_address)
      set_reg resources instruction.reg_1_num value
  else if instruction.opcode = 0x1 then
    if instruction.reg_2_num = 0 then do
      let value ← get_reg resources instruction.reg_1_num
      let m ← Memory.write_to resources.memory
        (instruction.address / 4 + resources.mem_start_address) value
      pure { resources with memory := m }
    else do
      let a ← get_reg resources instruction.reg_2_num
      let value ← get_reg resources instruction.reg_1_num
      let m ← Memory.write_to resources.memory (a / 4 + resources.mem_start_address) value
      pure { resources with memory := m }
  else
    none

/-- `Cpu::execute`: opcode 0x13 is a NOP for every instruction type;
otherwise dispatch on the instruction type. -/
def cpu_execute (resources : CpuResources) (instruction : DecodedInstruction) :
    Option CpuResources :=
  if instruction.opcode = 0x13 then some resources
  else if instruction.instr_type = 0 then execute_arithmetic resources instruction
  else if instruction.instr_type = 1 then execute_cond_branch_immediate resources instruction
  else if instruction.instr_type = 2 then execute_uncond_jump resources instruction
  else if instruction.instr_type = 3 then execute_io resources instruction
  else none

/-- One iteration of `Cpu::cycle`: fetch `cache[pc]` (`none` models the
index panic), increment the program counter, decode, execute. -/
def cpu_cycle (resources : CpuResources) : Option CpuResources :=
  match resources.cache.get? resources.program_counter with
  | none => none
  | some current_instruction =>
    let resources := { resources with program_counter := resources.program_counter + 1 }
    match decode current_instruction with
    | none => none
    | some decoded_instruction => cpu_execute resources decoded_instruction

/-! ## `src/kernel/long_term_scheduler.rs` -/

/-- The two recoverable error strings of `LongTermScheduler::step`:
`emptyQueue` is the source's "No programs in queue" and
`insufficientMemory` is "Not enough memory to load program". -/
inductive LtsError where
  | emptyQueue
  | insufficientMemory
  deriving DecidableEq, Repr

/-- `LongTermScheduler` state: the disk and memory handles plus the
admission queue and the resident (unload) list. -/
structure LongTermScheduler where
  disk : Disk
  memory : Memory
  program_queue : List Nat
  unload_list : List Nat

/-- `LongTermScheduler::enqueue_programs`. -/
def LongTermScheduler.enqueue_programs (lts : LongTermScheduler)
    (program_ids : List Nat) : LongTermScheduler :=
  { lts with program_queue := lts.program_queue ++ program_ids }

/-- `LongTermScheduler::step`. The outer `Option` models the panics of
`get_info_for` / `read_data_for` / `create_process`; the `Except` is the
source's `Result`, returned together with the (possibly unchanged)
scheduler state. -/
def LongTermScheduler.step (lts : LongTermScheduler) :
    Option (Except LtsError Nat × LongTermScheduler) :=
  match lts.program_queue with
  | [] => some (Except.error LtsError.emptyQueue, lts)
  | program_id :: rest =>
    match Disk.get_info_for lts.disk program_id with
    | none => none
    | some program_info =>
      match Disk.read_data_for lts.disk program_info with
      | none => none
      | some program_data =>
        if Memory.get_remaining_memory lts.memory < program_data.length then
          some (Except.error LtsError.insufficientMemory, lts)
        else
          match Memory.create_process lts.memory program_info program_data with
          | none => none
          | some m =>
            some (Except.ok program_id,
              { lts with
                memory := m
                program_queue := rest
                unload_list := lts.unload_list ++ [program_id] })

/-- The per-id loop body of `LongTermScheduler::unload_all`: read the
PCB's `[mem_out_start, mem_end)` block and write it back to the disk.
Memory is not mutated inside the loop. -/
def unload_loop (disk : Disk) (memory : Memory) : List Nat → Option Disk
  | [] => some disk
  | program_id :: rest =>
    match Memory.get_pcb_for memory program_id with
    | none => none
    | some pcb =>
      match Memory.read_block_from memory pcb.mem_out_start_address pcb.mem_end_address with
      | none => none
      | some data =>
        match Disk.update_program disk program_id data with
        | none => none
        | some disk2 => unload_loop disk2 memory rest

/-- `LongTermScheduler::unload_all`: flush every resident program's
output/temp block back to disk, clear the unload list, core-dump memory. -/
def LongTermScheduler.unload_all (lts : LongTermScheduler) : Option LongTermScheduler :=
  match unload_loop lts.disk lts.memory lts.unload_list with
  | none => none
  | some disk2 =>
    match Memory.core_dump lts.memory with
    | none => none
    | some m => some { lts with disk := disk2, memory := m, unload_list := [] }

/-- `LongTermScheduler::has_programs`. -/
def LongTermScheduler.has_programs (lts : LongTermScheduler) : Bool :=
  !lts.program_queue.isEmpty

/-! ## `src/kernel/short_term_scheduler.rs` (Priority ready queue)

The source wraps each PCB in `PriorityProcessControlBlock`, whose `Ord`
instance compares only `get_priority()`, and stores the wrappers in
`std::collections::BinaryHeap` — a max-heap whose `pop` returns a greatest
element with respect to that `Ord` (the tie-break among equal elements is
unspecified by the heap). The heap itself is library code, modelled here
by its contract: the queue content is a list, `push` inserts, and `pop`
removes the first greatest element under the source's comparison. -/

/-- The `Ord for PriorityProcessControlBlock` comparison of the source:
compare the wrapped PCBs' priorities only. -/
def priority_pcb_cmp (a b : Pcb) : Ordering :=
  compare a.priority b.priority

/-- `SchedulerQueue::push` for `PriorityQueue`. -/
def priority_queue_push (queue : List Pcb) (pcb : Pcb) : List Pcb :=
  pcb :: queue

/-- `SchedulerQueue::pop` for `PriorityQueue`: remove and return a maximal
element of the heap with respect to `priority_pcb_cmp`. -/
def priority_queue_pop : List Pcb → Option (Pcb × List Pcb)
  | [] => none
  | p :: rest =>
    match priority_queue_pop rest with
    | none => some (p, [])
    | some (q, rest2) =>
      match priority_pcb_cmp p q with
      | Ordering.lt => some (q, p :: rest2)
      | _ => some (p, rest)

/-! ## Theorems -/

/-- `extract_bits` computes the `length`-bit field that starts
`start_index` bits below the most significant bit: arithmetically,
`w / 2 ^ (32 - start_index - length) % 2 ^ length`. -/
theorem extract_bits_eq (w s l : Nat) (hsl : s + l ≤ 32) :
    extract_bits w s l = w / 2 ^ (32 - s - l) % 2 ^ l := by
  unfold extract_bits
  have e1 : (2 : Nat) ^ 32 = 2 ^ (32 - s) * 2 ^ s := by
    rw [← pow_add]
    congr 1
    omega
  rw [e1, Nat.mul_mod_mul_right]
  have e2 : (2 : Nat) ^ (32 - l) = 2 ^ (32 - s - l) * 2 ^ s := by
    rw [← pow_add]
    congr 1
    omega
  rw [e2, Nat.mul_div_mul_right _ _ (Nat.two_pow_pos s)]
  have e3 : (2 : Nat) ^ (32 - s) = 2 ^ (32 - s - l) * 2 ^ l := by
    rw [← pow_add]
    congr 1
    omega
  rw [e3, Nat.mod_mul_right_div_self]

/-- **C1.** For every 32-bit word, `Cpu::decode` yields `instr_type`
equal to the word's top 2 bits and `opcode` equal to the next 6 bits;
for Arithmetic (00) words the three register indices are bits 8-11,
12-15, 16-19; for CondBranchImmediate (01) and IO (11) words the address
is bits 16-31; for UncondJump (10) words the address is bits 8-23. -/
theorem decode_bit_fields (w : Nat) (hw : w < 2 ^ 32) :
    ∃ d, decode w = some d ∧
      d.instr_type = w / 2 ^ 30 ∧
      d.opcode = w / 2 ^ 24 % 2 ^ 6 ∧
      (w / 2 ^ 30 = 0 →
        d.reg_1_num = w / 2 ^ 20 % 2 ^ 4 ∧
        d.reg_2_num = w / 2 ^ 16 % 2 ^ 4 ∧
        d.reg_3_num = w / 2 ^ 12 % 2 ^ 4) ∧
      (w / 2 ^ 30 = 1 ∨ w / 2 ^ 30 = 3 → d.address = w % 2 ^ 16) ∧
      (w / 2 ^ 30 = 2 → d.address = w / 2 ^ 8 % 2 ^ 16) := by
  have hw' : w < 4294967296 := by norm_num at hw; exact hw
  have e0 := extract_bits_eq w 0 2 (by norm_num)
  have e26 := extract_bits_eq w 2 6 (by norm_num)
  have e84 := extract_bits_eq w 8 4 (by norm_num)
  have e124 := extract_bits_eq w 12 4 (by norm_num)
  have e164 := extract_bits_eq w 16 4 (by norm_num)
  have e1616 := extract_bits_eq w 16 16 (by norm_num)
  have e816 := extract_bits_eq w 8 16 (by norm_num)
  norm_num at e0 e26 e84 e124 e164 e1616 e816
  have ht : extract_bits w 0 2 = w / 1073741824 := by
    rw [e0, Nat.mod_eq_of_lt (by omega)]
  norm_num
  have hcase : w / 1073741824 = 0 ∨ w / 1073741824 = 1 ∨ w / 1073741824 = 2 ∨
      w / 1073741824 = 3 := by omega
  rcases hcase with hc | hc | hc | hc
  · refine ⟨⟨extract_bits w 0 2, extract_bits w 2 6, extract_bits w 8 4,
      extract_bits w 12 4, extract_bits w 16 4, 0⟩, ?_, ?_⟩
    · simp [decode, ht, hc]
    · simp [ht, hc, e26, e84, e124, e164]
  · refine ⟨⟨extract_bits w 0 2, extract_bits w 2 6, extract_bits w 8 4,
      extract_bits w 12 4, 0, extract_bits w 16 16⟩, ?_, ?_⟩
    · simp [decode, ht, hc]
    · simp [ht, hc, e26, e1616]
  · refine ⟨⟨extract_bits w 0 2, extract_bits w 2 6, 0, 0, 0,
      extract_bits w 8 16⟩, ?_, ?_⟩
    · simp [decode, ht, hc]
    · simp [ht, hc, e26, e816]
  · refine ⟨⟨extract_bits w 0 2, extract_bits w 2 6, extract_bits w 8 4,
      extract_bits w 12 4, 0, extract_bits w 16 16⟩, ?_, ?_⟩
    · simp [decode, ht, hc]
    · simp [ht, hc, e26, e1616]

/-- Witness for `decode_bit_fields` at the BNE word 0x56810018 of JOB 1. -/
theorem decode_bit_fields_witness :
    (0x56810018 : Nat) < 2 ^ 32 ∧
      (∃ d, decode 0x56810018 = some d ∧
        d.instr_type = 0x56810018 / 2 ^ 30 ∧
        d.opcode = 0x56810018 / 2 ^ 24 % 2 ^ 6 ∧
        (0x56810018 / 2 ^ 30 = 0 →
          d.reg_1_num = 0x56810018 / 2 ^ 20 % 2 ^ 4 ∧
          d.reg_2_num = 0x56810018 / 2 ^ 16 % 2 ^ 4 ∧
          d.reg_3_num = 0x56810018 / 2 ^ 12 % 2 ^ 4) ∧
        ((0x56810018 : Nat) / 2 ^ 30 = 1 ∨ (0x56810018 : Nat) / 2 ^ 30 = 3 →
          d.address = 0x56810018 % 2 ^ 16) ∧
        ((0x56810018 : Nat) / 2 ^ 30 = 2 → d.address = 0x56810018 / 2 ^ 8 % 2 ^ 16)) :=
  ⟨by norm_num, decode_bit_fields 0x56810018 (by norm_num)⟩

/-- **C6.** A non-empty Priority ready queue pops a PCB of maximal
priority (the source's max-heap orders by `get_priority()` only; the
returned element is in the queue and every queued PCB has priority at
most its priority; ties are left unspecified). -/
theorem priority_queue_pop_is_max (queue : List Pcb) (h : queue ≠ []) :
    ∃ p rest, priority_queue_pop queue = some (p, rest) ∧ p ∈ queue ∧
      ∀ q ∈ queue, q.priority ≤ p.priority := by
  induction queue with
  | nil => exact absurd rfl h
  | cons p rest ih =>
    cases hrest : rest with
    | nil =>
      refine ⟨p, [], ?_, List.mem_cons_self p [], ?_⟩
      · simp [priority_queue_pop]
      · intro q hq
        rw [List.mem_singleton] at hq
        exact hq ▸ Nat.le_refl _
    | cons r rest2 =>
      subst hrest
      obtain ⟨q, rest3, hpop, hmem, hmax⟩ := ih (by simp)
      rcases hcmp : priority_pcb_cmp p q with hlt | heq | hgt
      · have hplt : p.priority < q.priority := by
          unfold priority_pcb_cmp at hcmp
          exact Nat.compare_eq_lt.mp hcmp
        refine ⟨q, p :: rest3, ?_, List.mem_cons_of_mem p hmem, ?_⟩
        · rw [priority_queue_pop, hpop]
          simp [hcmp]
        · intro x hx
          rcases List.mem_cons.mp hx with hx | hx
          · exact hx ▸ Nat.le_of_lt hplt
          · exact hmax x hx
      · have hpeq : p.priority = q.priority := by
          unfold priority_pcb_cmp at hcmp
          exact Nat.compare_eq_eq.mp hcmp
        refine ⟨p, r :: rest2, ?_, List.mem_cons_self p _, ?_⟩
        · rw [priority_queue_pop, hpop]
          simp [hcmp]
        · intro x hx
          rcases List.mem_cons.mp hx with hx | hx
          · exact hx ▸ Nat.le_refl _
          · exact hpeq ▸ hmax x hx
      · have hpgt : q.priority < p.priority := by
          unfold priority_pcb_cmp at hcmp
          exact Nat.compare_eq_gt.mp hcmp
        refine ⟨p, r :: rest2, ?_, List.mem_cons_self p _, ?_⟩
        · rw [priority_queue_pop, hpop]
          simp [hcmp]
        · intro x hx
          rcases List.mem_cons.mp hx with hx | hx
          · exact hx ▸ Nat.le_refl _
          · exact Nat.le_trans (hmax x hx) (Nat.le_of_lt hpgt)

/-- Concrete example queue for the Priority scheduler (priorities 3, 1, 2
as in the source's `test_priority_queue`). -/
def examplePriorityQueue : List Pcb :=
  [Pcb.new ⟨2, 3, 0, 0, 0, 0, 0⟩ 0 0,
   Pcb.new ⟨0, 1, 0, 0, 0, 0, 0⟩ 0 0,
   Pcb.new ⟨1, 2, 0, 0, 0, 0, 0⟩ 0 0]

/-- Witness for `priority_queue_pop_is_max` on a three-element queue. -/
theorem priority_queue_pop_is_max_witness :
    examplePriorityQueue ≠ [] ∧
    (∃ p rest, priority_queue_pop examplePriorityQueue = some (p, rest) ∧
      p ∈ examplePriorityQueue ∧
      ∀ q ∈ examplePriorityQueue, q.priority ≤ p.priority) :=
  ⟨by simp [examplePriorityQueue],
   priority_queue_pop_is_max examplePriorityQueue (by simp [examplePriorityQueue])⟩

/-- Every decoded register index is a 4-bit field, hence < 16. -/
theorem decode_reg_nums_lt (w : Nat) (d : DecodedInstruction) (h : decode w = some d) :
    d.reg_1_num < 16 ∧ d.reg_2_num < 16 ∧ d.reg_3_num < 16 := by
  have h84 : extract_bits w 8 4 < 16 := by
    rw [extract_bits_eq w 8 4 (by norm_num)]
    exact Nat.mod_lt _ (by norm_num)
  have h124 : extract_bits w 12 4 < 16 := by
    rw [extract_bits_eq w 12 4 (by norm_num)]
    exact Nat.mod_lt _ (by norm_num)
  have h164 : extract_bits w 16 4 < 16 := by
    rw [extract_bits_eq w 16 4 (by norm_num)]
    exact Nat.mod_lt _ (by norm_num)
  simp only [decode] at h
  split_ifs at h <;> cases h <;>
    exact ⟨by first | exact h84 | norm_num, by first | exact h124 | norm_num,
      by first | exact h164 | norm_num⟩

/-- **C8.** Executing a SUB instruction (Arithmetic, opcode 0x6) with
`r1 < r2` aborts the simulation (debug-mode unsigned subtraction traps,
modelled as `none`) instead of wrapping; with `r1 ≥ r2` the destination
register `r3` receives `r1 - r2` and nothing else changes. -/
theorem execute_arithmetic_sub (resources : CpuResources)
    (instruction : DecodedInstruction) (hop : instruction.opcode = 0x6)
    (h1 : instruction.reg_1_num < 16) (h2 : instruction.reg_2_num < 16)
    (h3 : instruction.reg_3_num < 16) :
    (resources.registers ⟨instruction.reg_1_num, h1⟩ <
        resources.registers ⟨instruction.reg_2_num, h2⟩ →
      execute_arithmetic resources instruction = none) ∧
    (resources.registers ⟨instruction.reg_2_num, h2⟩ ≤
        resources.registers ⟨instruction.reg_1_num, h1⟩ →
      execute_arithmetic resources instruction =
        some { resources with registers := fun i =>
          if i = (⟨instruction.reg_3_num, h3⟩ : Fin 16) then
            resources.registers ⟨instruction.reg_1_num, h1⟩ -
              resources.registers ⟨instruction.reg_2_num, h2⟩
          else resources.registers i }) := by
  constructor
  · intro hlt
    simp [execute_arithmetic, hop, get_reg, h1, h2, u32_sub, hlt]
  · intro hge
    have hnlt : ¬ (resources.registers ⟨instruction.reg_1_num, h1⟩ <
        resources.registers ⟨instruction.reg_2_num, h2⟩) := Nat.not_lt.mpr hge
    simp [execute_arithmetic, hop, get_reg, set_reg, h1, h2, h3, u32_sub, hnlt]

/-- Concrete CPU state for the SUB witness: register 1 holds 5,
register 2 holds 7. -/
def exampleSubResources : CpuResources :=
  { memory := Memory.new, cache := [], program_counter := 0,
    mem_start_address := 0,
    registers := fun i => if i = 1 then 5 else if i = 2 then 7 else 0,
    interrupt := none }

/-- The decoded SUB instruction `r3 := r1 - r2` with r1 = reg 1,
r2 = reg 2, r3 = reg 3. -/
def exampleSubInstruction : DecodedInstruction := ⟨0, 6, 1, 2, 3, 0⟩

/-- Witness for `execute_arithmetic_sub`: with r1 = 5 < r2 = 7 the SUB
aborts. -/
theorem execute_arithmetic_sub_witness :
    exampleSubInstruction.opcode = 6 ∧ exampleSubInstruction.reg_1_num < 16 ∧
    exampleSubInstruction.reg_2_num < 16 ∧ exampleSubInstruction.reg_3_num < 16 ∧
    execute_arithmetic exampleSubResources exampleSubInstruction = none :=
  ⟨rfl, by decide, by decide, by decide,
   (execute_arithmetic_sub exampleSubResources exampleSubInstruction rfl
      (by decide) (by decide) (by decide)).1 (by decide)⟩

/-- **C9.** A BLZ instruction (CondBranchImmediate 01, opcode 0x1A) never
branches: one CPU cycle on a BLZ word leaves the state unchanged except
that the program counter advances to its post-fetch value `pc + 1` —
in particular every register and every memory word is unchanged, for all
register contents. -/
theorem blz_cycle_is_no_op (resources : CpuResources) (w : Nat)
    (hfetch : resources.cache.get? resources.program_counter = some w)
    (hw : w < 2 ^ 32)
    (htype : w / 2 ^ 30 = 1)
    (hop : w / 2 ^ 24 % 2 ^ 6 = 0x1A) :
    cpu_cycle resources =
      some { resources with program_counter := resources.program_counter + 1 } := by
  obtain ⟨d, hd, hdt, hdo, _, _, _⟩ := decode_bit_fields w hw
  obtain ⟨hr1, _, _⟩ := decode_reg_nums_lt w d hd
  have hdt' : d.instr_type = 1 := by rw [hdt, htype]
  have hdo' : d.opcode = 26 := by rw [hdo]; exact hop
  unfold cpu_cycle
  simp only [hfetch, hd]
  unfold cpu_execute
  rw [hdt']
  norm_num [hdo']
  unfold execute_cond_branch_immediate
  norm_num [hdo', get_reg, hr1]

/-- A concrete BLZ word: instruction type 01, opcode 0x1A, register 1,
address 0x18 (0x5A100018). -/
def exampleBlzResources : CpuResources :=
  { memory := Memory.new, cache := [0x5A100018], program_counter := 0,
    mem_start_address := 0,
    registers := fun i => if i = 1 then 42 else 0,
    interrupt := none }

/-- Witness for `blz_cycle_is_no_op` at the BLZ word 0x5A100018. -/
theorem blz_cycle_is_no_op_witness :
    exampleBlzResources.cache.get? exampleBlzResources.program_counter =
        some 0x5A100018 ∧
    (0x5A100018 : Nat) < 2 ^ 32 ∧
    (0x5A100018 : Nat) / 2 ^ 30 = 1 ∧
    (0x5A100018 : Nat) / 2 ^ 24 % 2 ^ 6 = 0x1A ∧
    cpu_cycle exampleBlzResources =
      some { exampleBlzResources with
             program_counter := exampleBlzResources.program_counter + 1 } :=
  ⟨rfl, by norm_num, by norm_num, by norm_num,
   blz_cycle_is_no_op exampleBlzResources 0x5A100018 rfl (by norm_num)
     (by norm_num) (by norm_num)⟩

/-- **C7 counterexample.** The source's `Disk::write_program` does not
fail on a duplicate id: after a successful write of program 0, a second
`write_program` with the same id 0 also succeeds (the map entry is
overwritten), contradicting the claim that it is a fatal error. -/
theorem write_program_duplicate_id_not_fatal :
    ∃ d1 d2, Disk.write_program Disk.new 0 0 1 1 1 2 [1, 2, 3, 4, 5] = some d1 ∧
      Disk.get_info_for d1 0 ≠ none ∧
      Disk.write_program d1 0 0 1 1 1 2 [6, 7, 8, 9, 10] = some d2 := by
  refine ⟨_, _, rfl, ?_, rfl⟩
  decide

/-- **C7 (amended).** `Disk::write_program` is fatal exactly when the bump
pointer plus the data length exceeds the 4096-word capacity; a duplicate
id is not rejected (the new `ProgramInfo` overwrites the map entry for
that id); on success the `ProgramInfo` entries of every other id and the
pool contents below the old bump pointer are unchanged, and the bump
pointer advances by the data length. -/
theorem write_program_spec (d : Disk) (id priority isz insz osz tsz : Nat)
    (data : List Nat) :
    (d.current_data_idx + data.length > 4096 →
      Disk.write_program d id priority isz insz osz tsz data = none) ∧
    (d.current_data_idx + data.length ≤ 4096 →
      ∃ d2, Disk.write_program d id priority isz insz osz tsz data = some d2 ∧
        d2.program_map id =
          some ⟨id, priority, isz, insz, osz, tsz, d.current_data_idx⟩ ∧
        (∀ k, k ≠ id → d2.program_map k = d.program_map k) ∧
        (∀ i, i < d.current_data_idx → d2.data i = d.data i) ∧
        d2.current_data_idx = d.current_data_idx + data.length) := by
  constructor
  · intro hgt
    unfold Disk.write_program
    rw [if_pos (by simp [DISK_SIZE]; omega)]
  · intro hle
    unfold Disk.write_program
    rw [if_neg (by simp [DISK_SIZE]; omega)]
    refine ⟨_, rfl, by simp, ?_, ?_, rfl⟩
    · intro k hk
      simp [hk]
    · intro i hi
      exact writeBlockFn_apply_of_lt data d.data d.current_data_idx i hi

/-- Witness for `write_program_spec` at an in-capacity write on a fresh
disk. -/
theorem write_program_spec_witness :
    Disk.new.current_data_idx + ([1, 2, 3, 4, 5] : List Nat).length ≤ 4096 ∧
    (∃ d2, Disk.write_program Disk.new 7 3 1 1 1 2 [1, 2, 3, 4, 5] = some d2 ∧
      d2.program_map 7 = some ⟨7, 3, 1, 1, 1, 2, Disk.new.current_data_idx⟩ ∧
      (∀ k, k ≠ 7 → d2.program_map k = Disk.new.program_map k) ∧
      (∀ i, i < Disk.new.current_data_idx → d2.data i = Disk.new.data i) ∧
      d2.current_data_idx = Disk.new.current_data_idx + ([1, 2, 3, 4, 5] : List Nat).length) :=
  ⟨by norm_num [Disk.new],
   (write_program_spec Disk.new 7 3 1 1 1 2 [1, 2, 3, 4, 5]).2 (by norm_num [Disk.new])⟩

/-- Evaluation of `Memory::create_process` when the image fits below the
1024-word bound. -/
theorem create_process_eq (m : Memory) (info : ProgramInfo) (pdata : List Nat)
    (h : m.current_data_idx + pdata.length ≤ 1024) :
    Memory.create_process m info pdata = some
      { pcb_map := fun k =>
          if k = info.id then
            some (Pcb.new info m.current_data_idx (m.current_data_idx + pdata.length))
          else m.pcb_map k,
        data := writeBlockFn m.data m.current_data_idx pdata,
        current_data_idx := m.current_data_idx + pdata.length } := by
  unfold Memory.create_process Memory.write_block_to
  have hng : (m.current_data_idx + pdata.length > MEMORY_SIZE) = False :=
    eq_false (by simp only [MEMORY_SIZE]; omega)
  simp only [hng, if_false]

/-- **C3.** `LongTermScheduler::step`: an empty admit queue yields the
EmptyQueue error with the state unchanged; a front program whose image
exceeds the remaining memory yields the InsufficientMemory error with the
admit queue, the unload list and the memory all unchanged; otherwise the
front id is popped, the process is created in memory, the id is appended
to the unload list and returned. -/
theorem lts_step_cases (lts : LongTermScheduler)
    (hcur : lts.memory.current_data_idx ≤ 1024) :
    (lts.program_queue = [] →
      LongTermScheduler.step lts = some (Except.error LtsError.emptyQueue, lts)) ∧
    (∀ pid rest info pdata,
      lts.program_queue = pid :: rest →
      lts.disk.program_map pid = some info →
      Disk.read_data_for lts.disk info = some pdata →
      (Memory.get_remaining_memory lts.memory < pdata.length →
        LongTermScheduler.step lts =
          some (Except.error LtsError.insufficientMemory, lts)) ∧
      (pdata.length ≤ Memory.get_remaining_memory lts.memory →
        ∃ m2, Memory.create_process lts.memory info pdata = some m2 ∧
          LongTermScheduler.step lts = some (Except.ok pid,
            { lts with
              memory := m2
              program_queue := rest
              unload_list := lts.unload_list ++ [pid] }))) := by
  constructor
  · intro hq
    unfold LongTermScheduler.step
    rw [hq]
  · intro pid rest info pdata hq hinfo hdata
    constructor
    · intro hlt
      unfold LongTermScheduler.step
      rw [hq]
      simp only [Disk.get_info_for, hinfo, hdata, if_pos hlt]
    · intro hge
      have hfit : lts.memory.current_data_idx + pdata.length ≤ 1024 := by
        unfold Memory.get_remaining_memory MEMORY_SIZE at hge
        omega
      refine ⟨_, create_process_eq lts.memory info pdata hfit, ?_⟩
      unfold LongTermScheduler.step
      rw [hq]
      simp only [Disk.get_info_for, hinfo, hdata,
        if_neg (Nat.not_lt.mpr hge), create_process_eq lts.memory info pdata hfit]

/-- A one-program scheduler state for the C3 witness: program 9 (image
[3, 1, 4]) staged on disk, admit queue [9]. -/
def exampleLts : LongTermScheduler :=
  { disk := { program_map := fun k => if k = 9 then some ⟨9, 1, 1, 1, 1, 0, 0⟩ else none,
              data := fun i => if i = 0 then 3 else if i = 1 then 1 else if i = 2 then 4 else 0,
              current_data_idx := 3 },
    memory := Memory.new,
    program_queue := [9],
    unload_list := [] }

/-- Witness for `lts_step_cases`: admitting program 9 pops the queue,
creates the process and returns the id. -/
theorem lts_step_cases_witness :
    exampleLts.memory.current_data_idx ≤ 1024 ∧
    exampleLts.program_queue = 9 :: [] ∧
    exampleLts.disk.program_map 9 = some ⟨9, 1, 1, 1, 1, 0, 0⟩ ∧
    Disk.read_data_for exampleLts.disk ⟨9, 1, 1, 1, 1, 0, 0⟩ = some [3, 1, 4] ∧
    (([3, 1, 4] : List Nat).length ≤ Memory.get_remaining_memory exampleLts.memory →
      ∃ m2, Memory.create_process exampleLts.memory ⟨9, 1, 1, 1, 1, 0, 0⟩ [3, 1, 4] = some m2 ∧
        LongTermScheduler.step exampleLts = some (Except.ok 9,
          { exampleLts with
            memory := m2
            program_queue := []
            unload_list := exampleLts.unload_list ++ [9] })) :=
  ⟨by decide, rfl, rfl, by decide,
   ((lts_step_cases exampleLts (by decide)).2 9 [] ⟨9, 1, 1, 1, 1, 0, 0⟩ [3, 1, 4]
      rfl rfl (by decide)).2⟩

/-- One `Disk::write_program` call as issued by the loader: id, priority,
the four region sizes, and the image data. -/
structure WriteReq where
  id : Nat
  priority : Nat
  instruction_buffer_size : Nat
  in_buffer_size : Nat
  out_buffer_size : Nat
  temp_buffer_size : Nat
  data : List Nat
  deriving DecidableEq

/-- Sum of the four region sizes of a request. -/
def WriteReq.sizes_total (r : WriteReq) : Nat :=
  r.instruction_buffer_size + r.in_buffer_size + r.out_buffer_size + r.temp_buffer_size

/-- Fold a sequence of `write_program` calls over a disk (the loader's
behaviour: one call per parsed JOB in file order). -/
def writeAll (d : Disk) : List WriteReq → Option Disk
  | [] => some d
  | r :: rs =>
    match Disk.write_program d r.id r.priority r.instruction_buffer_size
        r.in_buffer_size r.out_buffer_size r.temp_buffer_size r.data with
    | none => none
    | some d2 => writeAll d2 rs

/-- Cumulative data length of a sequence of write requests. -/
def totalLen : List WriteReq → Nat
  | [] => 0
  | r :: rs => r.data.length + totalLen rs

/-- Evaluation of `Disk::write_program` when the data fits below the
4096-word bound. -/
theorem write_program_eq (d : Disk) (id priority isz insz osz tsz : Nat)
    (data : List Nat) (h : d.current_data_idx + data.length ≤ 4096) :
    Disk.write_program d id priority isz insz osz tsz data = some
      { program_map := fun k =>
          if k = id then some ⟨id, priority, isz, insz, osz, tsz, d.current_data_idx⟩
          else d.program_map k,
        data := writeBlockFn d.data d.current_data_idx data,
        current_data_idx := d.current_data_idx + data.length } := by
  unfold Disk.write_program
  have hng : (d.current_data_idx + data.length > DISK_SIZE) = False :=
    eq_false (by simp only [DISK_SIZE]; omega)
  simp only [hng, if_false]

/-- Inductive core for C2: folding a capacity-respecting sequence of
writes succeeds, touches only pool indices at or above the starting bump
pointer and only map entries of written ids, advances the bump pointer by
the total length, and every request round-trips through
`read_data_for ∘ get_info_for`. -/
theorem writeAll_spec (reqs : List WriteReq) (d : Disk)
    (hcap : d.current_data_idx + totalLen reqs ≤ 4096)
    (hlen : ∀ r ∈ reqs, r.data.length = WriteReq.sizes_total r)
    (hnodup : (reqs.map (fun r => r.id)).Nodup) :
    ∃ d2, writeAll d reqs = some d2 ∧
      (∀ i, i < d.current_data_idx → d2.data i = d.data i) ∧
      (∀ k, k ∉ reqs.map (fun r => r.id) → d2.program_map k = d.program_map k) ∧
      d2.current_data_idx = d.current_data_idx + totalLen reqs ∧
      (∀ r ∈ reqs, ∃ info, d2.program_map r.id = some info ∧
        Disk.read_data_for d2 info = some r.data) := by
  induction reqs generalizing d with
  | nil =>
    refine ⟨d, rfl, fun i _ => rfl, fun k _ => rfl, ?_, fun r hr => absurd hr (by simp)⟩
    simp [totalLen]
  | cons r rs ih =>
    have htl : totalLen (r :: rs) = r.data.length + totalLen rs := rfl
    have hfit1 : d.current_data_idx + r.data.length ≤ 4096 := by
      rw [htl] at hcap
      omega
    have h1 := write_program_eq d r.id r.priority r.instruction_buffer_size
      r.in_buffer_size r.out_buffer_size r.temp_buffer_size r.data hfit1
    set d1 : Disk :=
      { program_map := fun k =>
          if k = r.id then
            some ⟨r.id, r.priority, r.instruction_buffer_size, r.in_buffer_size,
              r.out_buffer_size, r.temp_buffer_size, d.current_data_idx⟩
          else d.program_map k,
        data := writeBlockFn d.data d.current_data_idx r.data,
        current_data_idx := d.current_data_idx + r.data.length } with hd1
    have hcap2 : d1.current_data_idx + totalLen rs ≤ 4096 := by
      rw [hd1]
      rw [htl] at hcap
      simp only
      omega
    have hlen2 : ∀ x ∈ rs, x.data.length = WriteReq.sizes_total x :=
      fun x hx => hlen x (List.mem_cons_of_mem r hx)
    have hnodup2 : (rs.map (fun x => x.id)).Nodup := (List.nodup_cons.mp hnodup).2
    have hrid : r.id ∉ rs.map (fun x => x.id) := (List.nodup_cons.mp hnodup).1
    obtain ⟨d2, hw2, hdata2, hmap2, hcur2, hround2⟩ := ih d1 hcap2 hlen2 hnodup2
    have hd1cur : d1.current_data_idx = d.current_data_idx + r.data.length := by rw [hd1]
    refine ⟨d2, ?_, ?_, ?_, ?_, ?_⟩
    · unfold writeAll
      rw [h1]
      exact hw2
    · intro i hi
      have hi1 : i < d1.current_data_idx := by omega
      rw [hdata2 i hi1, hd1]
      exact writeBlockFn_apply_of_lt r.data d.data d.current_data_idx i hi
    · intro k hk
      have hk1 : k ∉ rs.map (fun x => x.id) := fun hmem => hk (by simp [hmem])
      have hkr : k ≠ r.id := fun he => hk (by simp [he])
      rw [hmap2 k hk1, hd1]
      simp [hkr]
    · rw [hcur2, hd1cur, htl]
      omega
    · intro x hx
      rcases List.mem_cons.mp hx with hx | hx
      · subst hx
        have hmapx : d2.program_map x.id = d1.program_map x.id := hmap2 x.id hrid
        have hinfox : d1.program_map x.id =
            some ⟨x.id, x.priority, x.instruction_buffer_size, x.in_buffer_size,
              x.out_buffer_size, x.temp_buffer_size, d.current_data_idx⟩ := by
          rw [hd1]
          simp
        refine ⟨_, hmapx.trans hinfox, ?_⟩
        have hlenx : x.data.length = WriteReq.sizes_total x := hlen x (by simp)
        unfold Disk.read_data_for
        simp only
        have hsz : d.current_data_idx + x.instruction_buffer_size + x.in_buffer_size
            + x.out_buffer_size + x.temp_buffer_size
            = d.current_data_idx + x.data.length := by
          rw [hlenx]
          unfold WriteReq.sizes_total
          omega
        rw [hsz, if_pos (by unfold DISK_SIZE; omega)]
        have hdel : d.current_data_idx + x.data.length - d.current_data_idx
            = x.data.length := by omega
        rw [hdel]
        have hcongr : readBlockFn d2.data d.current_data_idx x.data.length =
            readBlockFn d1.data d.current_data_idx x.data.length := by
          apply readBlockFn_congr
          intro i hi
          exact hdata2 (d.current_data_idx + i) (by omega)
        rw [hcongr, hd1]
        simp only
        exact congrArg some (readBlockFn_writeBlockFn d.data d.current_data_idx x.data)
      · exact hround2 x hx

/-- **C2.** For any sequence of `Disk::write_program` calls (distinct
ids, each data slice being the concatenation of its four regions) whose
cumulative data lengths fit in the 4096-word disk, every written id
subsequently round-trips: `read_data_for (get_info_for id)` returns
exactly the data slice passed for that id. -/
theorem disk_write_read_roundtrip (reqs : List WriteReq)
    (hcap : totalLen reqs ≤ 4096)
    (hlen : ∀ r ∈ reqs, r.data.length = WriteReq.sizes_total r)
    (hnodup : (reqs.map (fun r => r.id)).Nodup) :
    ∃ d2, writeAll Disk.new reqs = some d2 ∧
      ∀ r ∈ reqs, ∃ info, Disk.get_info_for d2 r.id = some info ∧
        Disk.read_data_for d2 info = some r.data := by
  obtain ⟨d2, h1, _, _, _, h5⟩ := writeAll_spec reqs Disk.new
    (by simpa [Disk.new] using hcap) hlen hnodup
  exact ⟨d2, h1, fun r hr => h5 r hr⟩

/-- The two write requests of the C2 witness. -/
def exampleReqs : List WriteReq :=
  [⟨0, 0, 1, 1, 1, 2, [1, 2, 3, 4, 5]⟩, ⟨1, 1, 1, 1, 1, 2, [6, 7, 8, 9, 10]⟩]

/-- Witness for `disk_write_read_roundtrip` on two programs. -/
theorem disk_write_read_roundtrip_witness :
    totalLen exampleReqs ≤ 4096 ∧
    (∀ r ∈ exampleReqs, r.data.length = WriteReq.sizes_total r) ∧
    (exampleReqs.map (fun r => r.id)).Nodup ∧
    (∃ d2, writeAll Disk.new exampleReqs = some d2 ∧
      ∀ r ∈ exampleReqs, ∃ info, Disk.get_info_for d2 r.id = some info ∧
        Disk.read_data_for d2 info = some r.data) :=
  ⟨by decide, by decide, by decide,
   disk_write_read_roundtrip exampleReqs (by decide) (by decide) (by decide)⟩

/-- A sequence of admissions: `Memory.create_process` folded over
`(ProgramInfo, image)` pairs, as driven by successful `LTS.step` calls. -/
def createAll (m : Memory) : List (ProgramInfo × List Nat) → Option Memory
  | [] => some m
  | pr :: rest =>
    match Memory.create_process m pr.1 pr.2 with
    | none => none
    | some m2 => createAll m2 rest

/-- The memory-layout invariant: the bump pointer is within capacity,
every live PCB's region boundaries are ordered and below the bump
pointer, regions of distinct live PCBs are disjoint, and every word below
the bump pointer is covered by some live PCB. -/
def MemInv (m : Memory) : Prop :=
  m.current_data_idx ≤ 1024 ∧
  (∀ id p, m.pcb_map id = some p → p.id = id ∧
    p.mem_start_address ≤ p.mem_in_start_address ∧
    p.mem_in_start_address ≤ p.mem_out_start_address ∧
    p.mem_out_start_address ≤ p.mem_temp_start_address ∧
    p.mem_temp_start_address ≤ p.mem_end_address ∧
    p.mem_end_address ≤ m.current_data_idx) ∧
  (∀ id1 p1 id2 p2, m.pcb_map id1 = some p1 → m.pcb_map id2 = some p2 →
    id1 ≠ id2 →
    p1.mem_end_address ≤ p2.mem_start_address ∨
    p2.mem_end_address ≤ p1.mem_start_address) ∧
  (∀ a, a < m.current_data_idx → ∃ id p, m.pcb_map id = some p ∧
    p.mem_start_address ≤ a ∧ a < p.mem_end_address)

theorem memInv_new : MemInv Memory.new := by
  refine ⟨by norm_num [Memory.new], ?_, ?_, ?_⟩
  · intro id p h
    simp [Memory.new] at h
  · intro id1 p1 id2 p2 h1
    simp [Memory.new] at h1
  · intro a ha
    simp [Memory.new] at ha

/-- A successful `create_process` implies the image fitted, and yields
the explicit result state. -/
theorem create_process_some_elim (m : Memory) (info : ProgramInfo)
    (pdata : List Nat) (m1 : Memory)
    (h : Memory.create_process m info pdata = some m1) :
    m.current_data_idx + pdata.length ≤ 1024 ∧
    m1 = { pcb_map := fun k =>
             if k = info.id then
               some (Pcb.new info m.current_data_idx (m.current_data_idx + pdata.length))
             else m.pcb_map k,
           data := writeBlockFn m.data m.current_data_idx pdata,
           current_data_idx := m.current_data_idx + pdata.length } := by
  by_cases hc : m.current_data_idx + pdata.length ≤ 1024
  · rw [create_process_eq m info pdata hc] at h
    exact ⟨hc, (Option.some.injEq _ _ ▸ h).symm⟩
  · exfalso
    unfold Memory.create_process Memory.write_block_to at h
    have hng : (m.current_data_idx + pdata.length > MEMORY_SIZE) = True :=
      eq_true (by simp only [MEMORY_SIZE]; omega)
    simp only [hng, if_true] at h
    exact Option.noConfusion h

/-- `create_process` preserves the layout invariant when the admitted id
is fresh and the image length is the sum of the four region sizes. -/
theorem create_process_preserves_inv (m : Memory) (info : ProgramInfo)
    (pdata : List Nat) (m1 : Memory)
    (hinv : MemInv m) (hfresh : m.pcb_map info.id = none)
    (hlen : pdata.length = info.total_size)
    (h : Memory.create_process m info pdata = some m1) :
    MemInv m1 ∧ ∀ id, id ≠ info.id → m1.pcb_map id = m.pcb_map id := by
  obtain ⟨hfit, hm1⟩ := create_process_some_elim m info pdata m1 h
  obtain ⟨hcur, hpcb, hdisj, hcov⟩ := hinv
  subst hm1
  have hchain : ∀ p, p = Pcb.new info m.current_data_idx (m.current_data_idx + pdata.length) →
      p.id = info.id ∧
      p.mem_start_address = m.current_data_idx ∧
      p.mem_start_address ≤ p.mem_in_start_address ∧
      p.mem_in_start_address ≤ p.mem_out_start_address ∧
      p.mem_out_start_address ≤ p.mem_temp_start_address ∧
      p.mem_temp_start_address ≤ p.mem_end_address ∧
      p.mem_end_address = m.current_data_idx + pdata.length := by
    intro p hp
    subst hp
    unfold ProgramInfo.total_size at hlen
    refine ⟨by simp only [Pcb.new], by simp only [Pcb.new],
      by simp only [Pcb.new]; omega, by simp only [Pcb.new]; omega,
      by simp only [Pcb.new]; omega, by simp only [Pcb.new]; omega,
      by simp only [Pcb.new]⟩
  refine ⟨⟨?_, ?_, ?_, ?_⟩, ?_⟩
  · simp only
    omega
  · intro id p hp
    simp only at hp ⊢
    by_cases hid : id = info.id
    · rw [if_pos hid] at hp
      obtain ⟨e1, e2, e3, e4, e5, e6, e7⟩ := hchain p (Option.some.injEq _ _ ▸ hp).symm
      exact ⟨e1.trans hid.symm, e3, e4, e5, e6, by omega⟩
    · rw [if_neg hid] at hp
      obtain ⟨e1, e2, e3, e4, e5, e6⟩ := hpcb id p hp
      exact ⟨e1, e2, e3, e4, e5, by omega⟩
  · intro id1 p1 id2 p2 hp1 hp2 hne
    simp only at hp1 hp2
    by_cases h1 : id1 = info.id
    · rw [if_pos h1] at hp1
      have hne2 : ¬ (id2 = info.id) := fun he => hne (h1.trans he.symm)
      rw [if_neg hne2] at hp2
      obtain ⟨_, e2, _, _, _, _, e7⟩ := hchain p1 (Option.some.injEq _ _ ▸ hp1).symm
      obtain ⟨_, _, _, _, _, e6⟩ := hpcb id2 p2 hp2
      right
      omega
    · rw [if_neg h1] at hp1
      by_cases h2 : id2 = info.id
      · rw [if_pos h2] at hp2
        obtain ⟨_, e2, _, _, _, _, e7⟩ := hchain p2 (Option.some.injEq _ _ ▸ hp2).symm
        obtain ⟨_, _, _, _, _, e6⟩ := hpcb id1 p1 hp1
        left
        omega
      · rw [if_neg h2] at hp2
        exact hdisj id1 p1 id2 p2 hp1 hp2 hne
  · intro a ha
    simp only at ha ⊢
    by_cases hao : a < m.current_data_idx
    · obtain ⟨id, p, hp, hs, he⟩ := hcov a hao
      have hid : ¬ (id = info.id) := by
        intro he2
        rw [he2, hfresh] at hp
        exact Option.noConfusion hp
      exact ⟨id, p, by rw [if_neg hid]; exact hp, hs, he⟩
    · refine ⟨info.id, _, by rw [if_pos rfl], ?_, ?_⟩
      · simp only [Pcb.new]
        omega
      · simp only [Pcb.new]
        omega
  · intro id hid
    simp only
    rw [if_neg hid]

/-- Folding a nodup sequence of fitting admissions preserves the layout
invariant. -/
theorem createAll_inv (l : List (ProgramInfo × List Nat)) (m : Memory)
    (mfinal : Memory)
    (hinv : MemInv m)
    (hlen : ∀ pr ∈ l, pr.2.length = ProgramInfo.total_size pr.1)
    (hfresh : ∀ pr ∈ l, m.pcb_map pr.1.id = none)
    (hnodup : (l.map (fun pr => pr.1.id)).Nodup)
    (hsucc : createAll m l = some mfinal) :
    MemInv mfinal := by
  induction l generalizing m with
  | nil =>
    unfold createAll at hsucc
    cases hsucc
    exact hinv
  | cons pr rest ih =>
    unfold createAll at hsucc
    cases hc : Memory.create_process m pr.1 pr.2 with
    | none => rw [hc] at hsucc; exact Option.noConfusion hsucc
    | some m1 =>
      rw [hc] at hsucc
      obtain ⟨hinv1, hpres⟩ := create_process_preserves_inv m pr.1 pr.2 m1 hinv
        (hfresh pr (by simp)) (hlen pr (by simp)) hc
      have hfresh1 : ∀ x ∈ rest, m1.pcb_map x.1.id = none := by
        intro x hx
        have hne : x.1.id ≠ pr.1.id := by
          have hnp := (List.nodup_cons.mp hnodup).1
          intro he
          apply hnp
          show pr.1.id ∈ List.map (fun pr => pr.1.id) rest
          rw [← he]
          exact List.mem_map.mpr ⟨x, hx, rfl⟩
        rw [hpres x.1.id hne]
        exact hfresh x (List.mem_cons_of_mem pr hx)
      exact ih m1 hinv1 (fun x hx => hlen x (List.mem_cons_of_mem pr hx)) hfresh1
        (List.nodup_cons.mp hnodup).2 hsucc

/-- **C5.** After any sequence of successful admissions from a fresh
memory (each image the concatenation of its four regions, ids distinct),
the `[mem_start, mem_end)` intervals of the live PCBs are pairwise
disjoint, consecutive, and their union is exactly `[0, next_free)`; and
every live PCB satisfies
`mem_start ≤ mem_in_start ≤ mem_out_start ≤ mem_temp_start ≤ mem_end ≤ 1024`. -/
theorem memory_layout_invariant (l : List (ProgramInfo × List Nat)) (mfinal : Memory)
    (hlen : ∀ pr ∈ l, pr.2.length = ProgramInfo.total_size pr.1)
    (hnodup : (l.map (fun pr => pr.1.id)).Nodup)
    (hsucc : createAll Memory.new l = some mfinal) :
    (∀ id p, mfinal.pcb_map id = some p →
      p.mem_start_address ≤ p.mem_in_start_address ∧
      p.mem_in_start_address ≤ p.mem_out_start_address ∧
      p.mem_out_start_address ≤ p.mem_temp_start_address ∧
      p.mem_temp_start_address ≤ p.mem_end_address ∧
      p.mem_end_address ≤ 1024) ∧
    (∀ id1 p1 id2 p2, mfinal.pcb_map id1 = some p1 →
      mfinal.pcb_map id2 = some p2 → id1 ≠ id2 →
      p1.mem_end_address ≤ p2.mem_start_address ∨
      p2.mem_end_address ≤ p1.mem_start_address) ∧
    (∀ id p, mfinal.pcb_map id = some p →
      p.mem_end_address ≤ mfinal.current_data_idx) ∧
    (∀ a, a < mfinal.current_data_idx → ∃ id p, mfinal.pcb_map id = some p ∧
      p.mem_start_address ≤ a ∧ a < p.mem_end_address) ∧
    (∀ id p, mfinal.pcb_map id = some p →
      p.mem_start_address = 0 ∨ ∃ id2 p2, mfinal.pcb_map id2 = some p2 ∧
        p2.mem_end_address = p.mem_start_address) := by
  have hinv := createAll_inv l Memory.new mfinal memInv_new hlen
    (fun pr _ => rfl) hnodup hsucc
  obtain ⟨hcur, hpcb, hdisj, hcov⟩ := hinv
  refine ⟨?_, hdisj, ?_, hcov, ?_⟩
  · intro id p hp
    obtain ⟨_, e2, e3, e4, e5, e6⟩ := hpcb id p hp
    exact ⟨e2, e3, e4, e5, by omega⟩
  · intro id p hp
    exact (hpcb id p hp).2.2.2.2.2
  · intro id p hp
    by_cases hz : p.mem_start_address = 0
    · exact Or.inl hz
    · right
      have hse : p.mem_start_address ≤ p.mem_end_address := by
        obtain ⟨_, e2, e3, e4, e5, _⟩ := hpcb id p hp
        omega
      have hlt : p.mem_start_address - 1 < mfinal.current_data_idx := by
        have := (hpcb id p hp).2.2.2.2.2
        omega
      obtain ⟨id2, p2, hp2, hs2, he2⟩ := hcov (p.mem_start_address - 1) hlt
      have hne : id2 ≠ id := by
        intro he
        subst he
        rw [hp2] at hp
        cases hp
        omega
      refine ⟨id2, p2, hp2, ?_⟩
      rcases hdisj id2 p2 id p hp2 hp hne with hd | hd
      · omega
      · omega

/-- The admission list for the C5 witness: two two-word programs. -/
def exampleAdmissions : List (ProgramInfo × List Nat) :=
  [(⟨1, 1, 1, 1, 0, 0, 0⟩, [10, 11]), (⟨2, 5, 1, 0, 1, 0, 2⟩, [20, 21])]

/-- Witness for `memory_layout_invariant` on two admissions. -/
theorem memory_layout_invariant_witness :
    (∀ pr ∈ exampleAdmissions, pr.2.length = ProgramInfo.total_size pr.1) ∧
    (exampleAdmissions.map (fun pr => pr.1.id)).Nodup ∧
    ∃ mfinal, createAll Memory.new exampleAdmissions = some mfinal ∧
      ((∀ id p, mfinal.pcb_map id = some p →
        p.mem_start_address ≤ p.mem_in_start_address ∧
        p.mem_in_start_address ≤ p.mem_out_start_address ∧
        p.mem_out_start_address ≤ p.mem_temp_start_address ∧
        p.mem_temp_start_address ≤ p.mem_end_address ∧
        p.mem_end_address ≤ 1024) ∧
      (∀ id1 p1 id2 p2, mfinal.pcb_map id1 = some p1 →
        mfinal.pcb_map id2 = some p2 → id1 ≠ id2 →
        p1.mem_end_address ≤ p2.mem_start_address ∨
        p2.mem_end_address ≤ p1.mem_start_address) ∧
      (∀ id p, mfinal.pcb_map id = some p →
        p.mem_end_address ≤ mfinal.current_data_idx) ∧
      (∀ a, a < mfinal.current_data_idx → ∃ id p, mfinal.pcb_map id = some p ∧
        p.mem_start_address ≤ a ∧ a < p.mem_end_address) ∧
      (∀ id p, mfinal.pcb_map id = some p →
        p.mem_start_address = 0 ∨ ∃ id2 p2, mfinal.pcb_map id2 = some p2 ∧
          p2.mem_end_address = p.mem_start_address)) := by
  refine ⟨by decide, by decide, ?_⟩
  have hs : (createAll Memory.new exampleAdmissions).isSome = true := by rfl
  obtain ⟨mfinal, hm⟩ := Option.isSome_iff_exists.mp hs
  exact ⟨mfinal, hm,
    memory_layout_invariant exampleAdmissions mfinal (by decide) (by decide) hm⟩

theorem readBlockFn_length (d : Nat → Nat) (start len : Nat) :
    (readBlockFn d start len).length = len := by
  simp [readBlockFn]

/-- Start of the `output ++ temp` region of a program on disk. -/
def updStart (info : ProgramInfo) : Nat :=
  info.data_start_idx + info.instruction_buffer_size + info.in_buffer_size

/-- End of the `output ++ temp` region (= end of the whole image). -/
def updEnd (info : ProgramInfo) : Nat :=
  updStart info + info.out_buffer_size + info.temp_buffer_size

/-- Evaluation of `Memory::read_block_from` on an in-bounds range. -/
theorem read_block_from_eq (m : Memory) (s e : Nat) (h1 : e < 1024) (h2 : s ≤ e) :
    Memory.read_block_from m s e = some (readBlockFn m.data s (e - s)) := by
  unfold Memory.read_block_from MEMORY_SIZE
  rw [if_neg (by omega), if_neg (by omega)]

/-- Evaluation of `Disk::update_program` when the data length matches the
`output ++ temp` region and the region is in bounds. -/
theorem update_program_eq (d : Disk) (id : Nat) (info : ProgramInfo)
    (data : List Nat)
    (hinfo : d.program_map id = some info)
    (hlen : data.length = info.out_buffer_size + info.temp_buffer_size)
    (hbound : updEnd info ≤ 4096) :
    Disk.update_program d id data =
      some { d with data := writeBlockFn d.data (updStart info) data } := by
  unfold updEnd updStart at hbound
  unfold Disk.update_program
  rw [hinfo]
  dsimp only
  rw [if_neg (by omega), if_pos (by unfold DISK_SIZE; omega)]
  rfl

/-- Everything `unload_all` needs of a resident id: its disk record and
its PCB exist, the PCB's out/temp block is in bounds (in particular
`mem_end < 1024` — see the boundary behaviour of `read_block_from`), its
length matches the disk's `output + temp` sizes, and the disk image is in
bounds. -/
def UnloadOk (pm : Nat → Option ProgramInfo) (m : Memory) (id : Nat) : Prop :=
  ∃ info pcb, pm id = some info ∧ m.pcb_map id = some pcb ∧
    pcb.mem_out_start_address ≤ pcb.mem_end_address ∧
    pcb.mem_end_address < 1024 ∧
    pcb.mem_end_address - pcb.mem_out_start_address =
      info.out_buffer_size + info.temp_buffer_size ∧
    updEnd info ≤ 4096

/-- Inductive core of C4: the flush loop succeeds, leaves the program map
and the bump pointer alone, touches only the `output ++ temp` disk
regions of the flushed ids, and writes each flushed id's region with the
memory words `[mem_out_start, mem_end)` of its PCB. -/
theorem unload_loop_spec (ids : List Nat) (disk : Disk) (m : Memory)
    (hok : ∀ id ∈ ids, UnloadOk disk.program_map m id) :
    ∃ disk2, unload_loop disk m ids = some disk2 ∧
      disk2.program_map = disk.program_map ∧
      disk2.current_data_idx = disk.current_data_idx ∧
      (∀ i, (∀ id ∈ ids, ∀ info, disk.program_map id = some info →
          i < updStart info ∨ updEnd info ≤ i) → disk2.data i = disk.data i) ∧
      (∀ id ∈ ids, ∀ info pcb, disk.program_map id = some info →
        m.pcb_map id = some pcb →
        (∀ id2 ∈ ids, id2 ≠ id → ∀ info2, disk.program_map id2 = some info2 →
          updEnd info2 ≤ info.data_start_idx ∨ updEnd info ≤ info2.data_start_idx) →
        readBlockFn disk2.data (updStart info)
            (info.out_buffer_size + info.temp_buffer_size) =
          readBlockFn m.data pcb.mem_out_start_address
            (pcb.mem_end_address - pcb.mem_out_start_address)) := by
  induction ids generalizing disk with
  | nil =>
    exact ⟨disk, rfl, rfl, rfl, fun i _ => rfl, fun id hid => absurd hid (by simp)⟩
  | cons id0 rest ih =>
    obtain ⟨info0, pcb0, hinfo0, hpcb0, hoe0, he0, hlen0, hb0⟩ :=
      hok id0 (List.mem_cons_self id0 rest)
    have hread := read_block_from_eq m pcb0.mem_out_start_address
      pcb0.mem_end_address he0 hoe0
    have hupd := update_program_eq disk id0 info0
      (readBlockFn m.data pcb0.mem_out_start_address
        (pcb0.mem_end_address - pcb0.mem_out_start_address))
      hinfo0 (by rw [readBlockFn_length]; exact hlen0) hb0
    set blk := readBlockFn m.data pcb0.mem_out_start_address
      (pcb0.mem_end_address - pcb0.mem_out_start_address) with hblk
    set disk1 : Disk := { disk with data := writeBlockFn disk.data (updStart info0) blk }
      with hdisk1
    have hok1 : ∀ id ∈ rest, UnloadOk disk1.program_map m id := by
      intro id hid
      exact hok id (List.mem_cons_of_mem id0 hid)
    obtain ⟨disk2, hloop, hpm2, hcur2, huntouched2, hround2⟩ := ih disk1 hok1
    have hstep : unload_loop disk m (id0 :: rest) = some disk2 := by
      unfold unload_loop
      simp only [Memory.get_pcb_for, hpcb0, hread, hupd]
      exact hloop
    have hpm1 : disk1.program_map = disk.program_map := rfl
    have hblklen : blk.length = info0.out_buffer_size + info0.temp_buffer_size := by
      rw [hblk, readBlockFn_length]
      exact hlen0
    refine ⟨disk2, hstep, hpm2.trans hpm1, hcur2, ?_, ?_⟩
    · intro i hi
      have h2 := huntouched2 i ?side
      case side =>
        intro id hid info hinfo
        exact hi id (List.mem_cons_of_mem id0 hid) info (hpm1 ▸ hinfo)
      rw [h2, hdisk1]
      simp only
      rw [writeBlockFn_apply]
      have hi0 := hi id0 (List.mem_cons_self id0 rest) info0 hinfo0
      have hno : ¬ (updStart info0 ≤ i ∧ i < updStart info0 + blk.length) := by
        rw [hblklen]
        unfold updEnd at hi0
        omega
      rw [if_neg hno]
    · intro id hid info pcb hinfo hpcb hdisj
      by_cases hidr : id ∈ rest
      · refine hround2 id hidr info pcb (hpm1 ▸ hinfo) hpcb ?_
        intro id2 hid2 hne info2 hinfo2
        exact hdisj id2 (List.mem_cons_of_mem id0 hid2) hne info2 (hpm1 ▸ hinfo2)
      · have hid0 : id = id0 := by
          rcases List.mem_cons.mp hid with h | h
          · exact h
          · exact absurd h hidr
        subst hid0
        have hinfo' : info = info0 := by
          rw [hinfo0] at hinfo
          exact (Option.some.inj hinfo).symm
        have hpcb' : pcb = pcb0 := by
          rw [hpcb0] at hpcb
          exact (Option.some.inj hpcb).symm
        subst hinfo'
        subst hpcb'
        have hcongr : readBlockFn disk2.data (updStart info)
            (info.out_buffer_size + info.temp_buffer_size) =
            readBlockFn disk1.data (updStart info)
              (info.out_buffer_size + info.temp_buffer_size) := by
          apply readBlockFn_congr
          intro i hilen
          apply huntouched2
          intro id2 hid2 info2 hinfo2
          have hne2 : id2 ≠ id := fun he => hidr (he ▸ hid2)
          have hdj := hdisj id2 (List.mem_cons_of_mem id hid2) hne2 info2
            (hpm1 ▸ hinfo2)
          have b1 : info.data_start_idx ≤ updStart info := by
            unfold updStart
            omega
          have b2 : info2.data_start_idx ≤ updStart info2 := by
            unfold updStart
            omega
          have b3 : updEnd info = updStart info + info.out_buffer_size
              + info.temp_buffer_size := rfl
          rcases hdj with hdj | hdj
          · right
            omega
          · left
            omega
        rw [hcongr, hdisk1]
        simp only
        have hlb : readBlockFn (writeBlockFn disk.data (updStart info) blk)
            (updStart info) (info.out_buffer_size + info.temp_buffer_size) =
            readBlockFn (writeBlockFn disk.data (updStart info) blk)
              (updStart info) blk.length := by
          rw [hblklen]
        rw [hlb, readBlockFn_writeBlockFn]

theorem getD_replicate_zero (n i : Nat) : (List.replicate n (0 : Nat)).getD i 0 = 0 := by
  by_cases h : i < n
  · rw [List.getD_eq_getElem _ _ (by simpa using h)]
    simp
  · rw [List.getD_eq_default _ _ (by simpa using Nat.le_of_not_lt h)]

/-- Evaluation of `Memory::core_dump`: the PCB map empties, every word of
the array is zeroed, the bump pointer resets. -/
theorem core_dump_eq (m : Memory) :
    Memory.core_dump m = some
      { pcb_map := fun _ => none,
        data := writeBlockFn m.data 0 (List.replicate MEMORY_SIZE 0),
        current_data_idx := 0 } := by
  unfold Memory.core_dump Memory.write_block_to
  rw [if_neg (by simp)]

/-- **C4.** For every id resident in the current batch (with consistent
disk/PCB records and pairwise-disjoint disk images), `unload_all`
succeeds, and afterwards `read_data_for (get_info_for id)` returns the
pre-flush instruction and input regions unchanged followed by the memory
words of `[mem_out_start, mem_end)` of that id's PCB at flush time; the
memory PCB map is empty, every memory word reads 0, and the remaining
memory is 1024. -/
theorem unload_all_flush_spec (lts : LongTermScheduler)
    (hok : ∀ id ∈ lts.unload_list, UnloadOk lts.disk.program_map lts.memory id)
    (hdisj : ∀ id1 ∈ lts.unload_list, ∀ id2 ∈ lts.unload_list, id1 ≠ id2 →
      ∀ i1 i2, lts.disk.program_map id1 = some i1 →
        lts.disk.program_map id2 = some i2 →
        updEnd i1 ≤ i2.data_start_idx ∨ updEnd i2 ≤ i1.data_start_idx) :
    ∃ lts2, LongTermScheduler.unload_all lts = some lts2 ∧
      lts2.unload_list = [] ∧
      lts2.disk.program_map = lts.disk.program_map ∧
      (∀ id ∈ lts.unload_list, ∀ info pcb,
        lts.disk.program_map id = some info →
        lts.memory.pcb_map id = some pcb →
        Disk.read_data_for lts2.disk info = some (
          readBlockFn lts.disk.data info.data_start_idx
            (info.instruction_buffer_size + info.in_buffer_size) ++
          readBlockFn lts.memory.data pcb.mem_out_start_address
            (pcb.mem_end_address - pcb.mem_out_start_address))) ∧
      (∀ id, lts2.memory.pcb_map id = none) ∧
      (∀ a, a < 1024 → Memory.read_from lts2.memory a = some 0) ∧
      Memory.get_remaining_memory lts2.memory = 1024 := by
  obtain ⟨disk2, hloop, hpm2, hcur2, huntouched, hround⟩ :=
    unload_loop_spec lts.unload_list lts.disk lts.memory hok
  have hdump := core_dump_eq lts.memory
  refine ⟨{ lts with
            disk := disk2
            memory := { pcb_map := fun _ => none,
                        data := writeBlockFn lts.memory.data 0
                          (List.replicate MEMORY_SIZE 0),
                        current_data_idx := 0 }
            unload_list := [] }, ?_, rfl, hpm2, ?_, fun id => rfl, ?_, ?_⟩
  · unfold LongTermScheduler.unload_all
    rw [hloop, hdump]
  · intro id hid info pcb hinfo hpcb
    obtain ⟨info', pcb', hinfo', hpcb', hoe, he, hlen, hb⟩ := hok id hid
    rw [hinfo] at hinfo'
    rw [hpcb] at hpcb'
    have einfo : info = info' := Option.some.inj hinfo'
    have epcb : pcb = pcb' := Option.some.inj hpcb'
    subst einfo
    subst epcb
    unfold Disk.read_data_for
    dsimp only
    have hb2 : info.data_start_idx + info.instruction_buffer_size
        + info.in_buffer_size + info.out_buffer_size + info.temp_buffer_size
        ≤ DISK_SIZE := by
      unfold updEnd updStart at hb
      unfold DISK_SIZE
      omega
    rw [if_pos hb2]
    have hsplit : info.data_start_idx + info.instruction_buffer_size
        + info.in_buffer_size + info.out_buffer_size + info.temp_buffer_size
        - info.data_start_idx
        = (info.instruction_buffer_size + info.in_buffer_size)
          + (info.out_buffer_size + info.temp_buffer_size) := by omega
    rw [hsplit, readBlockFn_add]
    -- instruction + input regions: untouched by the flush loop
    have h1 : readBlockFn disk2.data info.data_start_idx
        (info.instruction_buffer_size + info.in_buffer_size) =
        readBlockFn lts.disk.data info.data_start_idx
          (info.instruction_buffer_size + info.in_buffer_size) := by
      apply readBlockFn_congr
      intro i hilen
      apply huntouched
      intro id2 hid2 info2 hinfo2
      by_cases hne : id2 = id
      · subst hne
        rw [hinfo] at hinfo2
        have e2 : info2 = info := Option.some.inj hinfo2.symm
        subst e2
        unfold updStart
        left
        omega
      · have hdj := hdisj id2 hid2 id hid hne info2 info hinfo2 hinfo
        have b2 : info2.data_start_idx ≤ updStart info2 := by
          unfold updStart
          omega
        have b4 : updStart info = info.data_start_idx
            + info.instruction_buffer_size + info.in_buffer_size := rfl
        have b5 : updStart info ≤ updEnd info := by
          unfold updEnd
          omega
        rcases hdj with hdj | hdj
        · right
          omega
        · left
          omega
    -- output + temp regions: flushed from memory
    have hstart : info.data_start_idx
        + (info.instruction_buffer_size + info.in_buffer_size) = updStart info := by
      unfold updStart
      omega
    have h2 : readBlockFn disk2.data
        (info.data_start_idx + (info.instruction_buffer_size + info.in_buffer_size))
        (info.out_buffer_size + info.temp_buffer_size) =
        readBlockFn lts.memory.data pcb.mem_out_start_address
          (pcb.mem_end_address - pcb.mem_out_start_address) := by
      rw [hstart]
      refine hround id hid info pcb hinfo hpcb ?_
      intro id2 hid2 hne info2 hinfo2
      exact hdisj id2 hid2 id hid hne info2 info hinfo2 hinfo
    rw [h1, h2]
  · intro a ha
    unfold Memory.read_from MEMORY_SIZE
    rw [if_neg (by omega)]
    have hz : writeBlockFn lts.memory.data 0 (List.replicate 1024 0) a = 0 := by
      rw [writeBlockFn_apply,
        if_pos ⟨Nat.zero_le a, by rw [List.length_replicate]; omega⟩]
      exact getD_replicate_zero 1024 (a - 0)
    dsimp only
    rw [hz]
  · rfl

/-- The resident PCB of the C4 witness: program 1, regions of one word
each, occupying memory words `[0, 4)`. -/
def examplePcb : Pcb := Pcb.new ⟨1, 1, 1, 1, 1, 1, 0⟩ 0 4

/-- The scheduler state of the C4 witness: program 1 on disk at pool
indices `[0, 4)`, resident in memory words `[0, 4)`. -/
def exampleUnloadLts : LongTermScheduler :=
  { disk := { program_map := fun k => if k = 1 then some ⟨1, 1, 1, 1, 1, 1, 0⟩ else none,
              data := fun i => if i < 4 then i + 10 else 0,
              current_data_idx := 4 },
    memory := { pcb_map := fun k => if k = 1 then some examplePcb else none,
                data := fun i => if i < 4 then i + 50 else 0,
                current_data_idx := 4 },
    program_queue := [],
    unload_list := [1] }

/-- Witness for `unload_all_flush_spec` on a one-program batch. -/
theorem unload_all_flush_spec_witness :
    (∀ id ∈ exampleUnloadLts.unload_list,
      UnloadOk exampleUnloadLts.disk.program_map exampleUnloadLts.memory id) ∧
    (∃ lts2, LongTermScheduler.unload_all exampleUnloadLts = some lts2 ∧
      lts2.unload_list = [] ∧
      (∀ a, a < 1024 → Memory.read_from lts2.memory a = some 0) ∧
      Memory.get_remaining_memory lts2.memory = 1024) := by
  have hok : ∀ id ∈ exampleUnloadLts.unload_list,
      UnloadOk exampleUnloadLts.disk.program_map exampleUnloadLts.memory id := by
    intro id hid
    have e : exampleUnloadLts.unload_list = [1] := rfl
    rw [e, List.mem_singleton] at hid
    subst hid
    exact ⟨⟨1, 1, 1, 1, 1, 1, 0⟩, examplePcb, rfl, rfl, by decide, by decide,
      by decide, by decide⟩
  have hdisj : ∀ id1 ∈ exampleUnloadLts.unload_list,
      ∀ id2 ∈ exampleUnloadLts.unload_list, id1 ≠ id2 →
      ∀ i1 i2, exampleUnloadLts.disk.program_map id1 = some i1 →
        exampleUnloadLts.disk.program_map id2 = some i2 →
        updEnd i1 ≤ i2.data_start_idx ∨ updEnd i2 ≤ i1.data_start_idx := by
    intro id1 h1 id2 h2 hne
    have e : exampleUnloadLts.unload_list = [1] := rfl
    rw [e, List.mem_singleton] at h1 h2
    exact absurd (h1.trans h2.symm) hne
  obtain ⟨lts2, h1, h2, h3, h4, h5, h6, h7⟩ :=
    unload_all_flush_spec exampleUnloadLts hok hdisj
  exact ⟨hok, lts2, h1, h2, h6, h7⟩

/-- **C10 counterexample.** A process whose region ends exactly at word
1024 CAN have its instruction cache loaded (contradicting the claim that
it cannot): admit a 4-word program at words `[1020, 1024)`; the cache
load `read_block_from(mem_start, mem_in_start) = read_block_from(1020,
1021)` succeeds, while the flush read
`read_block_from(mem_out_start, mem_end) = read_block_from(1022, 1024)`
is indeed fatal. -/
theorem read_block_boundary_counterexample :
    ∃ m, Memory.create_process
        { pcb_map := fun _ => none, data := fun _ => 0, current_data_idx := 1020 }
        ⟨5, 1, 1, 1, 1, 1, 0⟩ [1, 2, 3, 4] = some m ∧
      ∃ p, m.pcb_map 5 = some p ∧
        p.mem_end_address = 1024 ∧
        p.mem_in_start_address = 1021 ∧
        (Memory.read_block_from m p.mem_start_address p.mem_in_start_address).isSome
          = true ∧
        Memory.read_block_from m p.mem_out_start_address p.mem_end_address = none := by
  refine ⟨_, create_process_eq _ _ _ (by norm_num), _, rfl, rfl, rfl, ?_, ?_⟩
  · rfl
  · rfl

/-- **C10 (amended).** `Memory::read_block_from` is fatal for every range
whose end address equals the capacity 1024 (even though every index read
would be below 1024), while `write_block_to` accepts writes ending
exactly at 1024 and `create_process` admits an image ending exactly at
1024; consequently a process whose region ends at word 1024 can be
admitted but cannot have its output/temp block flushed
(`read_block_from(mem_out_start, 1024)` panics); its instruction cache
load fails only when `mem_in_start` itself reaches 1024. -/
theorem read_block_boundary_spec (m : Memory) (s : Nat) (data : List Nat)
    (info : ProgramInfo) (pdata : List Nat) :
    Memory.read_block_from m s 1024 = none ∧
    (s + data.length ≤ 1024 → ∃ m2, Memory.write_block_to m s data = some m2) ∧
    (∀ p : Pcb, p.mem_end_address = 1024 →
      Memory.read_block_from m p.mem_out_start_address p.mem_end_address = none) ∧
    (m.current_data_idx + pdata.length ≤ 1024 →
      ∃ m2, Memory.create_process m info pdata = some m2) ∧
    (∀ p : Pcb, p.mem_start_address ≤ p.mem_in_start_address →
      p.mem_in_start_address < 1024 →
      (Memory.read_block_from m p.mem_start_address p.mem_in_start_address).isSome
        = true) := by
  refine ⟨?_, ?_, ?_, ?_, ?_⟩
  · unfold Memory.read_block_from MEMORY_SIZE
    rw [if_pos (by omega)]
  · intro hle
    unfold Memory.write_block_to MEMORY_SIZE
    rw [if_neg (by omega)]
    exact ⟨_, rfl⟩
  · intro p hp
    rw [hp]
    unfold Memory.read_block_from MEMORY_SIZE
    rw [if_pos (by omega)]
  · intro hle
    exact ⟨_, create_process_eq m info pdata hle⟩
  · intro p hsi hi
    unfold Memory.read_block_from MEMORY_SIZE
    rw [if_neg (by omega), if_neg (by omega)]
    rfl

/-- Witness for `read_block_boundary_spec` on a concrete memory, write
and PCB. -/
theorem read_block_boundary_spec_witness :
    Memory.read_block_from Memory.new 0 1024 = none ∧
    (Memory.new.current_data_idx + ([1, 2, 3] : List Nat).length ≤ 1024 →
      ∃ m2, Memory.create_process Memory.new ⟨3, 1, 1, 1, 1, 0, 0⟩ [1, 2, 3]
        = some m2) ∧
    (examplePcb.mem_start_address ≤ examplePcb.mem_in_start_address →
      examplePcb.mem_in_start_address < 1024 →
      (Memory.read_block_from Memory.new examplePcb.mem_start_address
        examplePcb.mem_in_start_address).isSome = true) := by
  have h := read_block_boundary_spec Memory.new 0 [1, 2, 3] ⟨3, 1, 1, 1, 1, 0, 0⟩
    [1, 2, 3]
  exact ⟨h.1, h.2.2.2.1, fun h1 h2 => h.2.2.2.2 examplePcb h1 h2⟩

end OsSim
